import Mathlib

/-!
Verification of the procedural liquid-brush-stroke renderer
(`src/components/LiquidBrushStrokeCanvas.tsx` and its variants).

The numeric model uses exact rationals for the PRNG, bezier sampling,
noise baking and progress computation (the JavaScript float values of
interest are exact binary rationals there), and reals for the width
profile and blob alpha, which use non-integer exponents.  The source
stores baked noise in a `Float32Array`; the model keeps the exact
values before that quantisation — rounding to nearest float32 cannot
move a value across the representable interval endpoints -0.5 and 0.5,
so the range and length facts proved below are unaffected.
-/

/-- 2^32, the modulus of all 32-bit integer arithmetic in the PRNG. -/
def U32 : ℕ := 4294967296

/-- JavaScript Math.imul on 32-bit patterns: multiply modulo 2^32. -/
def imul (x y : ℕ) : ℕ := (x * y) % U32

/-- State update of one mulberry32 call (`a |= 0; a = (a + 0x6d2b79f5) | 0`). -/
def m32a (s : ℕ) : ℕ := (s % U32 + 0x6d2b79f5) % U32

/-- First mixing round: `Math.imul(a ^ (a >>> 15), 1 | a)`. -/
def m32t1 (a : ℕ) : ℕ := imul (a ^^^ (a >>> 15)) (1 ||| a)

/-- Second mixing round: `(t + Math.imul(t ^ (t >>> 7), 61 | t)) ^ t`. -/
def m32t2 (t1 : ℕ) : ℕ := ((t1 + imul (t1 ^^^ (t1 >>> 7)) (61 ||| t1)) % U32) ^^^ t1

/-- Output pattern: `(t ^ (t >>> 14)) >>> 0`. -/
def m32v (t2 : ℕ) : ℕ := t2 ^^^ (t2 >>> 14)

/-- One call of the mulberry32 generator from
`LiquidBrushStrokeCanvas.tsx` lines 6-15.  The state is the 32-bit
pattern of the captured variable `a`; the result is the emitted float
in [0,1) (exact, since `(v >>> 0) / 2^32` with `v < 2^32` is an exact
binary rational) together with the updated state. -/
def mulberry32Step (s : ℕ) : ℚ × ℕ :=
  ((m32v (m32t2 (m32t1 (m32a s))) : ℚ) / (U32 : ℚ), m32a s)

/-- Draw `n` successive values from the generator, threading the state. -/
def drawN : ℕ → ℕ → List ℚ × ℕ
  | 0, s => ([], s)
  | n + 1, s =>
    let p := mulberry32Step s
    let q := drawN n p.2
    (p.1 :: q.1, q.2)

/-- `sampleBezier` (lines 18-35): `n+1` uniformly parametrised points of
the cubic bezier through the four control points. -/
def sampleBezier (p0x p0y c1x c1y c2x c2y p3x p3y : ℚ) (n : ℕ) :
    List (ℚ × ℚ) :=
  (List.range (n + 1)).map fun (i : ℕ) =>
    let t : ℚ := (i : ℚ) / (n : ℚ)
    let u : ℚ := 1 - t
    (u * u * u * p0x + 3 * u * u * t * c1x + 3 * u * t * t * c2x + t * t * t * p3x,
     u * u * u * p0y + 3 * u * u * t * c1y + 3 * u * t * t * c2y + t * t * t * p3y)

/-- `easeOutCubic` (line 51): `1 - (1 - t) ** 3`. -/
def easeOutCubic (t : ℚ) : ℚ := 1 - (1 - t) ^ 3

/-- Progress handed to `renderStroke` by `renderScene` (lines 388-392)
for a stroke with start `t0` and duration `dt` at time `elapsed`:
`easeOutCubic(Math.min(1, se / s.dt))` with `se = elapsed - t0`. -/
def strokeProgress (t0 dt elapsed : ℚ) : ℚ :=
  easeOutCubic (min 1 ((elapsed - t0) / dt))

/-- Modelled from the spec sentence of C2 (for the refinement reading):
`progress = 1 - (1 - min(1, (e-S)/D))^3`. -/
def specEasedProgress (S D e : ℚ) : ℚ :=
  1 - (1 - min 1 ((e - S) / D)) ^ 3

/-- `count` in `renderStroke` (line 176):
`Math.max(3, Math.round(progress * (nPts - 1)) + 1)`. -/
def revealedCount (progress : ℚ) (nPts : ℕ) : ℤ :=
  max 3 (round (progress * ((nPts : ℚ) - 1)) + 1)

/-- Edge-noise amplitude constant `NOISE_AMP` (line 108). -/
def NOISE_AMP : ℚ := 11 / 100

/-- Total animation duration `ANIM_END` (line 107), in seconds. -/
def ANIM_END : ℚ := 44 / 10

/-- Exit-taper length (line 58): `isLive ? 0.07 : 0.20`. -/
noncomputable def exitLen (isLive : Bool) : ℝ := if isLive then 0.07 else 0.20

/-- Exit-taper exponent (line 59): `isLive ? 0.45 : 1.15`. -/
noncomputable def exitPow (isLive : Bool) : ℝ := if isLive then 0.45 else 1.15

/-- `widthProfile` (lines 56-62): entry ramp over the first 4% of the
drawn portion times a liveness-dependent exit taper. -/
noncomputable def widthProfile (t : ℝ) (isLive : Bool) : ℝ :=
  (if t < 0.04 then (t / 0.04) ^ (0.55 : ℝ) else 1) *
    (if 1 - exitLen isLive < t then ((1 - t) / exitLen isLive) ^ exitPow isLive else 1)

/-- Number of noise control values drawn by `bakeNoise` (line 66):
`Math.ceil(n / step) + 2`. -/
def ctrlCount (n step : ℕ) : ℕ := (⌈(n : ℚ) / (step : ℚ)⌉).toNat + 2

/-- The control values of `bakeNoise` (line 67):
`Array.from({ length: nc }, () => rng() - 0.5)`. -/
def noiseCtrl (n step : ℕ) (s : ℕ) : List ℚ :=
  ((drawN (ctrlCount n step) s).1).map fun v => v - 1 / 2

/-- `bakeNoise` (lines 65-78): draw `ctrlCount n step` control values
`rng() - 0.5`, then smoothstep-interpolate them into an array of
length `n`.  Returns the array together with the generator state after
the control draws. -/
def bakeNoise (n step : ℕ) (s : ℕ) : List ℚ × ℕ :=
  let nc := ctrlCount n step
  let ctrl := noiseCtrl n step s
  (((List.range n).map fun (i : ℕ) =>
      let fi : ℚ := (i : ℚ) / (step : ℚ)
      let lo := (⌊fi⌋).toNat
      let hi := min (lo + 1) (nc - 1)
      let f : ℚ := fi - (lo : ℚ)
      let sm := f * f * (3 - 2 * f)
      ctrl.getD lo 0 + (ctrl.getD hi 0 - ctrl.getD lo 0) * sm),
   (drawN nc s).2)

/-- One bristle descriptor (lines 86-91). -/
structure Bristle where
  frac : ℚ
  alpha : ℚ
  lw : ℚ
  isRidge : Bool
  deriving Repr, DecidableEq

/-- One authored stroke definition (the `defs` literals of
`buildStrokes`, lines 119-136), with the hex colour already resolved
to its byte triple by `toRgb`. -/
structure StrokeDef where
  r : ℕ
  g : ℕ
  b : ℕ
  p0x : ℚ
  p0y : ℚ
  c1x : ℚ
  c1y : ℚ
  c2x : ℚ
  c2y : ℚ
  p3x : ℚ
  p3y : ℚ
  hw : ℚ
  t0 : ℚ
  dt : ℚ
  deriving Repr, DecidableEq

/-- Built stroke runtime data (the `Stroke` interface, lines 93-103). -/
structure Stroke where
  r : ℕ
  g : ℕ
  b : ℕ
  pts : List (ℚ × ℚ)
  maxHW : ℚ
  t0 : ℚ
  dt : ℚ
  noiseL : List ℚ
  noiseR : List ℚ
  bristles : List Bristle
  specFrac : ℚ
  deriving Repr, DecidableEq

/-- Bezier sample count `N_PTS` (line 106). -/
def N_PTS : ℕ := 200

/-- One bristle construction (lines 148-154): four successive PRNG
draws, in source order `isRidge`, `frac`, `alpha`, `lw`. -/
def buildBristle (s : ℕ) : Bristle × ℕ :=
  let d1 := mulberry32Step s
  let isRidge := decide (0.40 < d1.1)
  let d2 := mulberry32Step d1.2
  let d3 := mulberry32Step d2.2
  let d4 := mulberry32Step d3.2
  ({ frac := (d2.1 * 2 - 1) * 0.93,
     alpha := if isRidge then 0.06 + d3.1 * 0.10 else 0.04 + d3.1 * 0.06,
     lw := 0.45 + d4.1 * 1.30,
     isRidge := isRidge }, d4.2)

/-- Build `n` bristles in sequence, threading the PRNG state. -/
def buildBristles : ℕ → ℕ → List Bristle × ℕ
  | 0, s => ([], s)
  | n + 1, s =>
    let p := buildBristle s
    let q := buildBristles n p.2
    (p.1 :: q.1, q.2)

/-- Build one stroke from its definition (the body of the `defs.map`
callback, lines 138-163): sample the bezier, bake left and right
noise with step 7, draw `28 + floor(rng()*11)` bristles, and draw the
specular fraction `-(0.34 + rng() * 0.10)`. -/
def buildOne (d : StrokeDef) (s : ℕ) : Stroke × ℕ :=
  let pts := sampleBezier d.p0x d.p0y d.c1x d.c1y d.c2x d.c2y d.p3x d.p3y N_PTS
  let nL := bakeNoise (N_PTS + 1) 7 s
  let nR := bakeNoise (N_PTS + 1) 7 nL.2
  let dc := mulberry32Step nR.2
  let bCount := 28 + (⌊dc.1 * 11⌋).toNat
  let bs := buildBristles bCount dc.2
  let ds := mulberry32Step bs.2
  ({ r := d.r, g := d.g, b := d.b, pts := pts,
     maxHW := d.hw, t0 := d.t0, dt := d.dt,
     noiseL := nL.1, noiseR := nR.1,
     bristles := bs.1,
     specFrac := -(0.34 + ds.1 * 0.10) }, ds.2)

/-- The eight authored stroke definitions (lines 119-136), hex colours
resolved by `toRgb` (lines 81-83). -/
def strokeDefs : List StrokeDef :=
  [{ r := 200, g := 149, b := 106, p0x := -0.03, p0y := 0.86, c1x := 0.12, c1y := 0.26,
     c2x := 0.52, c2y := 0.04, p3x := 1.03, p3y := 0.18, hw := 0.050, t0 := 0.00, dt := 1.10 },
   { r := 190, g := 138, b := 94, p0x := -0.03, p0y := 0.52, c1x := 0.28, c1y := 0.18,
     c2x := 0.64, c2y := 0.80, p3x := 1.03, p3y := 0.44, hw := 0.042, t0 := 0.38, dt := 1.00 },
   { r := 217, g := 190, b := 160, p0x := 0.04, p0y := 0.06, c1x := 0.26, c1y := 0.00,
     c2x := 0.50, c2y := 0.18, p3x := 0.88, p3y := 0.42, hw := 0.036, t0 := 0.76, dt := 0.90 },
   { r := 173, g := 122, b := 82, p0x := -0.03, p0y := 0.88, c1x := 0.26, c1y := 0.96,
     c2x := 0.64, c2y := 0.76, p3x := 1.03, p3y := 0.72, hw := 0.046, t0 := 1.12, dt := 0.94 },
   { r := 208, g := 178, b := 150, p0x := 0.54, p0y := 0.00, c1x := 0.74, c1y := 0.04,
     c2x := 0.88, c2y := 0.22, p3x := 1.03, p3y := 0.48, hw := 0.033, t0 := 1.50, dt := 0.78 },
   { r := 188, g := 138, b := 98, p0x := 0.00, p0y := 0.10, c1x := 0.04, c1y := 0.36,
     c2x := 0.12, c2y := 0.62, p3x := 0.28, p3y := 1.02, hw := 0.034, t0 := 1.82, dt := 0.84 },
   { r := 200, g := 149, b := 106, p0x := 0.14, p0y := 1.03, c1x := 0.40, c1y := 0.82,
     c2x := 0.70, c2y := 0.94, p3x := 1.03, p3y := 0.96, hw := 0.040, t0 := 2.12, dt := 0.88 },
   { r := 190, g := 138, b := 94, p0x := 0.30, p0y := 0.30, c1x := 0.46, c1y := 0.12,
     c2x := 0.66, c2y := 0.28, p3x := 0.82, p3y := 0.54, hw := 0.029, t0 := 2.42, dt := 0.72 }]

/-- `defs.map` with the single shared generator threaded through the
strokes in order. -/
def buildStrokesGo : List StrokeDef → ℕ → List Stroke
  | [], _ => []
  | d :: ds, s =>
    let p := buildOne d s
    p.1 :: buildStrokesGo ds p.2

/-- `buildStrokes` (lines 115-165), with the seed of the freshly
constructed mulberry32 generator made explicit; the source calls it
with the literal seed `0xd3a7f1c9`. -/
def buildStrokesFromSeed (seed : ℕ) : List Stroke :=
  buildStrokesGo strokeDefs seed

/-- Blob alpha (line 345): `0.64 * Math.max(0, 1 - (progress / 0.92) ** 2.4)`. -/
noncomputable def blobAlpha (progress : ℝ) : ℝ :=
  0.64 * max 0 (1 - (progress / 0.92) ^ (2.4 : ℝ))

/-- The wet leading-edge blob pass executes precisely under the guards
of lines 340 and 347: `isLive && count >= 2` and `blobA > 0.015`,
where `isLive = progress < 0.96` (line 179). -/
def blobDrawn (progress : ℝ) (count : ℕ) : Prop :=
  progress < 0.96 ∧ 2 ≤ count ∧ 0.015 < blobAlpha progress

/-- An abstract drawing pass issued by `renderScene`: the background
fill of lines 386-387, or one `renderStroke` invocation of line 391
carrying the eased progress it receives. -/
inductive SceneOp where
  | fillBackground (cw ch : ℚ)
  | strokePass (progress : ℚ)
  deriving Repr, DecidableEq

/-- `renderScene` (lines 379-393) at the granularity of issued passes:
it always fills the background, then renders every stroke whose
elapsed time `se = elapsed - t0` is positive. -/
def renderSceneOps (strokes : List Stroke) (elapsed cw ch : ℚ) : List SceneOp :=
  SceneOp.fillBackground cw ch ::
    strokes.filterMap fun s =>
      if elapsed - s.t0 ≤ 0 then none
      else some (SceneOp.strokePass (strokeProgress s.t0 s.dt elapsed))

/-- `frame` (lines 427-430): reads the current logical size and, if the
strokes are built, calls `renderScene` with it — there is no guard on
`w` or `h`. -/
def frameOps (strokes : Option (List Stroke)) (elapsed w h : ℚ) : List SceneOp :=
  match strokes with
  | none => []
  | some ss => renderSceneOps ss elapsed w h

/-- The guarded normal-length denominator of `computeNormals`
(line 45): `Math.hypot(dx, dy) || 1`. -/
noncomputable def normalLen (dx dy : ℝ) : ℝ :=
  if Real.sqrt (dx ^ 2 + dy ^ 2) = 0 then 1 else Real.sqrt (dx ^ 2 + dy ^ 2)

/-- Observable state of the `LiquidBrushStrokeCanvas` component effect
(lines 396-468): whether an animation-frame callback is scheduled
(`rafRef`), the stored start timestamp (`t0Ref`), the done flag
(`doneRef`), and the elapsed values passed to `frame`, most recent
first. -/
structure CompState where
  rafScheduled : Bool
  t0 : Option ℚ
  done : Bool
  rendered : List ℚ
  deriving Repr, DecidableEq

/-- The initial ref values (lines 399-403). -/
def initState : CompState :=
  { rafScheduled := false, t0 := none, done := false, rendered := [] }

/-- Record one `frame(e)` call. -/
def doFrame (e : ℚ) (s : CompState) : CompState :=
  { s with rendered := e :: s.rendered }

/-- Mount-time behaviour after `resize()` (lines 445-451): with reduced
motion, one `frame(ANIM_END)`; otherwise schedule the loop. -/
def onMount (prefersReduced : Bool) (s : CompState) : CompState :=
  if prefersReduced then doFrame ANIM_END s
  else { s with rafScheduled := true }

/-- The `ResizeObserver` callback (lines 453-461): after `resize()`,
render the final frame when done or reduced motion is preferred, else
repaint at the current elapsed time if the loop has started. -/
def onResize (prefersReduced : Bool) (now : ℚ) (s : CompState) : CompState :=
  if s.done || prefersReduced then doFrame ANIM_END s
  else
    match s.t0 with
    | none => s
    | some t0 => doFrame (min ((now - t0) / 1000) ANIM_END) s

/-- One `loop(ts)` animation-frame callback (lines 432-443).  The
browser only invokes it while a callback is scheduled, which the guard
models; the body is the source's. -/
def onRafTick (ts : ℚ) (s : CompState) : CompState :=
  if s.rafScheduled then
    let t0 := s.t0.getD ts
    let e := (ts - t0) / 1000
    if ANIM_END ≤ e then
      doFrame ANIM_END { s with t0 := some t0, done := true, rafScheduled := false }
    else
      doFrame e { s with t0 := some t0, rafScheduled := true }
  else s

/-- External events delivered to the mounted component. -/
inductive Ev where
  | resize (now : ℚ)
  | raf (ts : ℚ)
  deriving Repr, DecidableEq

/-- Process a sequence of events left to right. -/
def runEvents (prefersReduced : Bool) : List Ev → CompState → CompState
  | [], s => s
  | Ev.resize now :: evs, s => runEvents prefersReduced evs (onResize prefersReduced now s)
  | Ev.raf ts :: evs, s => runEvents prefersReduced evs (onRafTick ts s)

/-- Number of resize events in a trace. -/
def resizeCount (evs : List Ev) : ℕ :=
  (evs.filter fun e => match e with | Ev.resize _ => true | Ev.raf _ => false).length

theorem U32_eq_two_pow : U32 = 2 ^ 32 := by norm_num [U32]

theorem imul_lt (x y : ℕ) : imul x y < U32 :=
  Nat.mod_lt _ (by norm_num [U32])

theorem m32a_lt (s : ℕ) : m32a s < U32 :=
  Nat.mod_lt _ (by norm_num [U32])

theorem m32t1_lt (a : ℕ) : m32t1 a < U32 := imul_lt _ _

theorem m32t2_lt (t1 : ℕ) (h : t1 < U32) : m32t2 t1 < U32 := by
  rw [U32_eq_two_pow] at h ⊢
  exact Nat.xor_lt_two_pow (by rw [← U32_eq_two_pow]; exact Nat.mod_lt _ (by norm_num [U32])) h

theorem m32v_lt (t2 : ℕ) (h : t2 < U32) : m32v t2 < U32 := by
  rw [U32_eq_two_pow] at h ⊢
  refine Nat.xor_lt_two_pow h ?_
  calc t2 >>> 14 = t2 / 2 ^ 14 := Nat.shiftRight_eq_div_pow _ _
    _ ≤ t2 := Nat.div_le_self _ _
    _ < 2 ^ 32 := h

theorem mulberry32Step_value_nonneg (s : ℕ) : 0 ≤ (mulberry32Step s).1 := by
  unfold mulberry32Step
  positivity

theorem mulberry32Step_value_lt_one (s : ℕ) : (mulberry32Step s).1 < 1 := by
  unfold mulberry32Step
  rw [div_lt_one (by norm_num [U32])]
  exact_mod_cast m32v_lt _ (m32t2_lt _ (m32t1_lt _))

theorem easeOutCubic_mono {x y : ℚ} (h : x ≤ y) : easeOutCubic x ≤ easeOutCubic y := by
  unfold easeOutCubic
  nlinarith [sq_nonneg ((1 - x) + (1 - y)), sq_nonneg ((1 - x) - (1 - y)), sq_nonneg (1 - x),
    sq_nonneg (1 - y)]

theorem widthProfile_nonneg (t : ℝ) (live : Bool) (h0 : 0 ≤ t) (h1 : t ≤ 1) :
    0 ≤ widthProfile t live := by
  unfold widthProfile
  have hlen : 0 < exitLen live := by cases live <;> norm_num [exitLen]
  apply mul_nonneg
  · split_ifs with h
    · exact Real.rpow_nonneg (by positivity) _
    · norm_num
  · split_ifs with h
    · exact Real.rpow_nonneg (div_nonneg (by linarith) hlen.le) _
    · norm_num

/-- Claim C1.  Geometry validity: for every progress in [0,1] the
revealed sample count `max(3, round(progress*(totalSamples-1))+1)`
computed by `renderStroke` on a 201-point stroke lies between 3 and
totalSamples+1, and every per-sample half-width
`maxHW * widthProfile(t, isLive)` is nonnegative for `t` in [0,1]
whenever `maxHW` is nonnegative. -/
theorem claim_geometry_validity :
    ∀ p : ℚ, 0 ≤ p → p ≤ 1 →
      (3 ≤ revealedCount p 201 ∧ revealedCount p 201 ≤ 201 + 1) ∧
      ∀ (t maxHW : ℝ) (live : Bool), 0 ≤ t → t ≤ 1 → 0 ≤ maxHW →
        0 ≤ maxHW * widthProfile t live := by
  intro p hp0 hp1
  constructor
  · constructor
    · exact le_max_left _ _
    · have hround : round (p * ((201 : ℕ) - 1 : ℚ)) ≤ 200 := by
        rw [round_eq]
        have hx : p * ((201 : ℕ) - 1 : ℚ) + 1 / 2 ≤ 200 + 1 / 2 := by
          push_cast
          nlinarith
        calc ⌊p * ((201 : ℕ) - 1 : ℚ) + 1 / 2⌋ ≤ ⌊(200 : ℚ) + 1 / 2⌋ := Int.floor_mono hx
          _ = 200 := by norm_num [Int.floor_eq_iff]
      unfold revealedCount
      omega
  · intro t maxHW live ht0 ht1 hhw
    exact mul_nonneg hhw (widthProfile_nonneg t live ht0 ht1)

/-- Witness for C1 at progress 1/2, sample parameter 1/2, maxHW 1. -/
theorem claim_geometry_validity_witness :
    0 ≤ (1 : ℝ) * widthProfile (1 / 2) true :=
  (claim_geometry_validity (1 / 2) (by norm_num) (by norm_num)).2
    (1 / 2) 1 true (by norm_num) (by norm_num) (by norm_num)

/-- Claim C2.  The eased progress handed to `renderStroke` for a stroke
with start `S`, duration `D` at elapsed `e > S` equals the spec's
`1 - (1 - min(1, (e-S)/D))^3`; for duration 1.10 s, start 0, elapsed
0.55 s the raw progress is exactly 0.5 and the eased progress exactly
0.875. -/
theorem claim_eased_progress_formula :
    (∀ S D e : ℚ, S < e → strokeProgress S D e = specEasedProgress S D e) ∧
    min 1 ((0.55 - 0) / (1.10 : ℚ)) = 1 / 2 ∧
    strokeProgress 0 1.10 0.55 = 0.875 := by
  refine ⟨fun S D e _ => rfl, by norm_num, ?_⟩
  norm_num [strokeProgress, easeOutCubic]

/-- Witness for C2 at the Scenario B input. -/
theorem claim_eased_progress_formula_witness :
    strokeProgress 0 1.10 0.55 = specEasedProgress 0 1.10 0.55 :=
  claim_eased_progress_formula.1 0 1.10 0.55 (by norm_num)

/-- Claim C3.  For a stroke with start `S` and positive duration `D`,
the eased progress is monotonically nondecreasing in time on `t ≥ S`,
and equals exactly 1 for every `t ≥ S + D`. -/
theorem claim_progress_monotone :
    ∀ S D : ℚ, 0 < D →
      (∀ t1 t2 : ℚ, S ≤ t1 → t1 ≤ t2 →
        strokeProgress S D t1 ≤ strokeProgress S D t2) ∧
      ∀ t : ℚ, S + D ≤ t → strokeProgress S D t = 1 := by
  intro S D hD
  constructor
  · intro t1 t2 _ h12
    apply easeOutCubic_mono
    exact min_le_min le_rfl ((div_le_div_iff_of_pos_right hD).mpr (by linarith))
  · intro t ht
    have h1 : (1 : ℚ) ≤ (t - S) / D := (le_div_iff₀ hD).mpr (by linarith)
    unfold strokeProgress
    rw [min_eq_left h1]
    norm_num [easeOutCubic]

/-- Witness for C3: monotonicity instance at S=0, D=1, t1=0, t2=1. -/
theorem claim_progress_monotone_witness :
    strokeProgress 0 1 0 ≤ strokeProgress 0 1 1 :=
  (claim_progress_monotone 0 1 (by norm_num)).1 0 1 le_rfl (by norm_num)

/-- Claim C4.  Sampling the first authored bezier
(-0.03,0.86)-(0.12,0.26)-(0.52,0.04)-(1.03,0.18) at 200 samples gives
201 points whose first point is exactly the start control point and
whose last point is exactly the end control point. -/
theorem claim_bezier_endpoint_exact :
    (sampleBezier (-0.03) 0.86 0.12 0.26 0.52 0.04 1.03 0.18 200).length = 201 ∧
    (sampleBezier (-0.03) 0.86 0.12 0.26 0.52 0.04 1.03 0.18 200).getD 0 (0, 0) =
      (-0.03, 0.86) ∧
    (sampleBezier (-0.03) 0.86 0.12 0.26 0.52 0.04 1.03 0.18 200).getD 200 (0, 0) =
      (1.03, 0.18) := by
  refine ⟨by simp only [sampleBezier, List.length_map, List.length_range], ?_, ?_⟩ <;>
    · simp only [sampleBezier]
      rw [List.getD_eq_getElem?_getD, List.getElem?_map, List.getElem?_range (by norm_num)]
      norm_num

theorem mulberry32Step_congr {a b : ℕ} (h : a % U32 = b % U32) :
    mulberry32Step a = mulberry32Step b := by
  unfold mulberry32Step m32a
  rw [h]

theorem drawN_succ_congr (n : ℕ) {a b : ℕ} (h : a % U32 = b % U32) :
    drawN (n + 1) a = drawN (n + 1) b := by
  unfold drawN
  rw [mulberry32Step_congr h]

theorem ctrlCount_succ (n step : ℕ) :
    ctrlCount n step = ((⌈(n : ℚ) / (step : ℚ)⌉).toNat + 1) + 1 := rfl

theorem noiseCtrl_congr (n step : ℕ) {a b : ℕ} (h : a % U32 = b % U32) :
    noiseCtrl n step a = noiseCtrl n step b := by
  unfold noiseCtrl
  rw [ctrlCount_succ, drawN_succ_congr _ h]

theorem drawN_ctrl_congr (n step : ℕ) {a b : ℕ} (h : a % U32 = b % U32) :
    drawN (ctrlCount n step) a = drawN (ctrlCount n step) b := by
  rw [ctrlCount_succ]
  exact drawN_succ_congr _ h

theorem bakeNoise_congr (n step : ℕ) {a b : ℕ} (h : a % U32 = b % U32) :
    bakeNoise n step a = bakeNoise n step b := by
  simp only [bakeNoise, noiseCtrl_congr n step h, drawN_ctrl_congr n step h]

theorem buildOne_congr (d : StrokeDef) {a b : ℕ} (h : a % U32 = b % U32) :
    buildOne d a = buildOne d b := by
  unfold buildOne
  rw [bakeNoise_congr _ _ h]

theorem buildStrokesGo_congr : ∀ (ds : List StrokeDef) {a b : ℕ},
    a % U32 = b % U32 → buildStrokesGo ds a = buildStrokesGo ds b
  | [], _, _, _ => rfl
  | d :: ds, a, b, h => by
    unfold buildStrokesGo
    rw [buildOne_congr d h]

/-- Claim C5.  Build determinism: the entire output of `buildStrokes`
(sampled points, noise arrays, bristle descriptors and specular
fractions) is a function of the 32-bit seed value alone, so two
independent builds from the fixed seed `0xd3a7f1c9` are identical. -/
theorem claim_build_determinism :
    ∀ s1 s2 : ℕ, s1 % U32 = s2 % U32 →
      buildStrokesFromSeed s1 = buildStrokesFromSeed s2 := fun _ _ h =>
  buildStrokesGo_congr strokeDefs h

/-- Witness for C5: two builds from the literal seed agree. -/
theorem claim_build_determinism_witness :
    buildStrokesFromSeed 0xd3a7f1c9 = buildStrokesFromSeed (0xd3a7f1c9 + U32) :=
  claim_build_determinism 0xd3a7f1c9 (0xd3a7f1c9 + U32) (by norm_num [U32])

theorem bakeNoise_length (n step s : ℕ) : (bakeNoise n step s).1.length = n := by
  simp only [bakeNoise, List.length_map, List.length_range]

theorem drawN_length : ∀ n s : ℕ, (drawN n s).1.length = n
  | 0, _ => rfl
  | n + 1, s => by simp only [drawN, List.length_cons, drawN_length n]

theorem sampleBezier_length (p0x p0y c1x c1y c2x c2y p3x p3y : ℚ) (n : ℕ) :
    (sampleBezier p0x p0y c1x c1y c2x c2y p3x p3y n).length = n + 1 := by
  simp only [sampleBezier, List.length_map, List.length_range]

theorem buildStrokesGo_noiseLen : ∀ (ds : List StrokeDef) (s : ℕ),
    (buildStrokesGo ds s).map
        (fun st => (st.noiseL.length, st.noiseR.length, st.pts.length)) =
      List.replicate ds.length (N_PTS + 1, N_PTS + 1, N_PTS + 1)
  | [], _ => rfl
  | d :: ds, s => by
    simp only [buildStrokesGo, List.map_cons, List.length_cons, List.replicate_succ,
      buildStrokesGo_noiseLen ds, buildOne, bakeNoise_length, sampleBezier_length,
      List.cons.injEq, and_true]

/-- Claim C6.  `bakeNoise(count, rng, step)` draws exactly
`ceil(count/step)+2` control values, each `rng() - 0.5`, and returns an
interpolated array of length exactly `count`; every built stroke's
`noiseL` and `noiseR` have length `N_PTS + 1 = 201`, equal to its
number of path points. -/
theorem claim_bakenoise_shape :
    (∀ n step : ℕ, ctrlCount n step = (⌈(n : ℚ) / (step : ℚ)⌉).toNat + 2) ∧
    (∀ n step s : ℕ,
      noiseCtrl n step s =
        ((drawN (ctrlCount n step) s).1).map (fun v => v - 1 / 2) ∧
      (noiseCtrl n step s).length = ctrlCount n step ∧
      (bakeNoise n step s).2 = (drawN (ctrlCount n step) s).2) ∧
    (∀ n step s : ℕ, (bakeNoise n step s).1.length = n) ∧
    ∀ seed : ℕ,
      (buildStrokesFromSeed seed).map
          (fun st => (st.noiseL.length, st.noiseR.length, st.pts.length)) =
        List.replicate strokeDefs.length (N_PTS + 1, N_PTS + 1, N_PTS + 1) := by
  refine ⟨fun n step => rfl, fun n step s => ⟨rfl, ?_, rfl⟩, bakeNoise_length, ?_⟩
  · simp only [noiseCtrl, List.length_map, drawN_length]
  · exact fun seed => buildStrokesGo_noiseLen strokeDefs seed

/-- Claim C7.  The wet leading-edge blob executes only while the stroke
is revealing — never once progress reaches the live threshold (0.96,
below the spec's approximate 0.97) — never when the computed alpha is
at or below the 0.015 visibility cutoff, and when it does execute its
alpha equals the base alpha 0.64 times `1 - (progress/0.92)^2.4`. -/
theorem claim_blob_gating :
    ∀ (p : ℝ) (count : ℕ),
      (0.96 ≤ p → ¬ blobDrawn p count) ∧
      (blobAlpha p ≤ 0.015 → ¬ blobDrawn p count) ∧
      (blobDrawn p count → p < 0.97 ∧
        blobAlpha p = 0.64 * (1 - (p / 0.92) ^ (2.4 : ℝ))) := by
  intro p count
  refine ⟨?_, ?_, ?_⟩
  · rintro hge ⟨hlt, -, -⟩
    linarith
  · rintro hle ⟨-, -, hgt⟩
    linarith
  · rintro ⟨hlt, -, hgt⟩
    refine ⟨by linarith, ?_⟩
    have hx : (0 : ℝ) ≤ 1 - (p / 0.92) ^ (2.4 : ℝ) := by
      by_contra hnx
      push_neg at hnx
      rw [blobAlpha, max_eq_left (le_of_lt hnx)] at hgt
      norm_num at hgt
    rw [blobAlpha, max_eq_right hx]

/-- Witness for C7: at progress 1 the blob is not drawn. -/
theorem claim_blob_gating_witness : ¬ blobDrawn 1 3 :=
  (claim_blob_gating 1 3).1 (by norm_num)

/-- Counterexample to C8 as stated: at logical size 0 × 0 the frame is
not skipped and drawing operations are performed — `frame` still
invokes `renderScene`, whose first issued pass is the background fill
over the zero-sized canvas. -/
theorem claim_zero_dim_counterexample :
    (frameOps (some (buildStrokesFromSeed 0xd3a7f1c9)) 1 0 0).head? =
      some (SceneOp.fillBackground 0 0) := rfl

/-- C8 as amended: zero or negative dimensions do not skip the frame —
the background fill is always the first issued pass — but no division
by zero occurs in the frame computation: the guarded normal-length
denominator of `computeNormals` is positive, and the per-sample
parameter denominator `count - 1` is at least 2. -/
theorem claim_zero_dim_amended :
    (∀ (strokes : List Stroke) (elapsed w h : ℚ),
      (frameOps (some strokes) elapsed w h).head? = some (SceneOp.fillBackground w h)) ∧
    (∀ dx dy : ℝ, 0 < normalLen dx dy) ∧
    (∀ (p : ℚ) (nPts : ℕ), 2 ≤ revealedCount p nPts - 1) := by
  refine ⟨fun strokes elapsed w h => rfl, ?_, ?_⟩
  · intro dx dy
    unfold normalLen
    split_ifs with hs
    · norm_num
    · exact lt_of_le_of_ne (Real.sqrt_nonneg _) (Ne.symm hs)
  · intro p nPts
    unfold revealedCount
    linarith [le_max_left 3 (round (p * ((nPts : ℚ) - 1)) + 1)]

theorem runEvents_reduced : ∀ (evs : List Ev) (s : CompState),
    s.rafScheduled = false →
    (runEvents true evs s).rafScheduled = false ∧
    (runEvents true evs s).rendered =
      List.replicate (resizeCount evs) ANIM_END ++ s.rendered
  | [], s, h => ⟨h, by simp [runEvents, resizeCount]⟩
  | Ev.resize now :: evs, s, h => by
    have h1 : (onResize true now s).rafScheduled = false := by
      simp [onResize, doFrame, h]
    have hrend : (onResize true now s).rendered = ANIM_END :: s.rendered := by
      simp [onResize, doFrame]
    obtain ⟨ha, hb⟩ := runEvents_reduced evs (onResize true now s) h1
    refine ⟨ha, ?_⟩
    show (runEvents true evs (onResize true now s)).rendered = _
    rw [hb, hrend]
    have hc : resizeCount (Ev.resize now :: evs) = resizeCount evs + 1 := by
      simp [resizeCount, List.filter_cons]
    rw [hc, List.replicate_succ', List.append_assoc, List.singleton_append]
  | Ev.raf ts :: evs, s, h => by
    have h1 : onRafTick ts s = s := by simp [onRafTick, h]
    have hc : resizeCount (Ev.raf ts :: evs) = resizeCount evs := by
      simp [resizeCount, List.filter_cons]
    obtain ⟨ha, hb⟩ := runEvents_reduced evs s h
    constructor
    · show (runEvents true evs (onRafTick ts s)).rafScheduled = false
      rw [h1]; exact ha
    · show (runEvents true evs (onRafTick ts s)).rendered =
        List.replicate (resizeCount (Ev.raf ts :: evs)) ANIM_END ++ s.rendered
      rw [h1, hc]; exact hb

/-- Claim C9.  With the reduced-motion preference active at mount, the
component renders exactly one frame at mount and one per resize event,
every rendered frame has elapsed pinned to `ANIM_END`, and an
animation-frame callback is never scheduled. -/
theorem claim_reduced_motion :
    ∀ evs : List Ev,
      (runEvents true evs (onMount true initState)).rafScheduled = false ∧
      (runEvents true evs (onMount true initState)).rendered =
        List.replicate (1 + resizeCount evs) ANIM_END := by
  intro evs
  obtain ⟨ha, hb⟩ := runEvents_reduced evs (onMount true initState)
    (by simp [onMount, doFrame, initState])
  refine ⟨ha, ?_⟩
  rw [hb]
  have hm : (onMount true initState).rendered = [ANIM_END] := by
    simp [onMount, doFrame, initState]
  rw [hm, Nat.add_comm 1 (resizeCount evs), List.replicate_succ']

theorem drawN_mem : ∀ (n s : ℕ), ∀ v ∈ (drawN n s).1, 0 ≤ v ∧ v < 1
  | 0, s => by intro v hv; simp [drawN] at hv
  | n + 1, s => by
    intro v hv
    simp only [drawN, List.mem_cons] at hv
    rcases hv with rfl | hv
    · exact ⟨mulberry32Step_value_nonneg s, mulberry32Step_value_lt_one s⟩
    · exact drawN_mem n _ v hv

theorem noiseCtrl_getD_bounds (n step s idx : ℕ) :
    -(1 / 2) ≤ (noiseCtrl n step s).getD idx 0 ∧
      (noiseCtrl n step s).getD idx 0 ≤ 1 / 2 := by
  rw [List.getD_eq_getElem?_getD]
  cases hx : (noiseCtrl n step s)[idx]? with
  | none => norm_num
  | some v =>
    have hv : v ∈ noiseCtrl n step s := List.getElem?_mem hx
    simp only [Option.getD_some]
    unfold noiseCtrl at hv
    obtain ⟨w, hw, rfl⟩ := List.mem_map.mp hv
    obtain ⟨h0, h1⟩ := drawN_mem _ _ w hw
    constructor <;> linarith

theorem smoothstep_bound {f : ℚ} (h0 : 0 ≤ f) (h1 : f ≤ 1) :
    0 ≤ f * f * (3 - 2 * f) ∧ f * f * (3 - 2 * f) ≤ 1 := by
  constructor
  · nlinarith [sq_nonneg f]
  · nlinarith [mul_nonneg (sq_nonneg (1 - f)) (by linarith : (0 : ℚ) ≤ 1 + 2 * f)]

theorem interp_bound {a b sm : ℚ} (ha : -(1 / 2) ≤ a ∧ a ≤ 1 / 2)
    (hb : -(1 / 2) ≤ b ∧ b ≤ 1 / 2) (hs : 0 ≤ sm ∧ sm ≤ 1) :
    -(1 / 2) ≤ a + (b - a) * sm ∧ a + (b - a) * sm ≤ 1 / 2 := by
  obtain ⟨ha0, ha1⟩ := ha
  obtain ⟨hb0, hb1⟩ := hb
  obtain ⟨hs0, hs1⟩ := hs
  constructor
  · nlinarith [mul_nonneg (by linarith : (0 : ℚ) ≤ 1 - sm) (by linarith : 0 ≤ a + 1 / 2),
      mul_nonneg hs0 (by linarith : 0 ≤ b + 1 / 2)]
  · nlinarith [mul_nonneg (by linarith : (0 : ℚ) ≤ 1 - sm) (by linarith : 0 ≤ 1 / 2 - a),
      mul_nonneg hs0 (by linarith : 0 ≤ 1 / 2 - b)]

theorem fract_via_toNat (fi : ℚ) (h : 0 ≤ fi) :
    0 ≤ fi - ((⌊fi⌋.toNat : ℕ) : ℚ) ∧ fi - ((⌊fi⌋.toNat : ℕ) : ℚ) ≤ 1 := by
  have hfl : (((⌊fi⌋.toNat : ℕ) : ℚ)) = ((⌊fi⌋ : ℤ) : ℚ) := by
    have := Int.toNat_of_nonneg (Int.floor_nonneg.mpr h)
    exact_mod_cast congrArg (fun z : ℤ => (z : ℚ)) this
  rw [hfl]
  constructor
  · linarith [Int.floor_le fi]
  · linarith [Int.lt_floor_add_one fi]

/-- Claim C10.  Every `bakeNoise` output value lies in [-0.5, 0.5]; as a
consequence the signed boundary offset `hw + noise*hw*NOISE_AMP` used
by `renderStroke` is nonnegative whenever the half-width is, and is
exactly zero where the half-width is zero. -/
theorem claim_noise_bounds :
    (∀ n step s : ℕ, ∀ x ∈ (bakeNoise n step s).1, -(1 / 2) ≤ x ∧ x ≤ 1 / 2) ∧
    (∀ hw noise : ℚ, 0 ≤ hw → -(1 / 2) ≤ noise → noise ≤ 1 / 2 →
      0 ≤ hw + noise * hw * NOISE_AMP) ∧
    (∀ noise : ℚ, (0 : ℚ) + noise * 0 * NOISE_AMP = 0) := by
  refine ⟨?_, ?_, fun noise => by ring⟩
  · intro n step s x hx
    simp only [bakeNoise, List.mem_map, List.mem_range] at hx
    obtain ⟨i, hi, rfl⟩ := hx
    exact interp_bound (noiseCtrl_getD_bounds n step s _) (noiseCtrl_getD_bounds n step s _)
      (smoothstep_bound (fract_via_toNat ((i : ℚ) / (step : ℚ)) (by positivity)).1
        (fract_via_toNat ((i : ℚ) / (step : ℚ)) (by positivity)).2)
  · intro hw noise h0 hn0 hn1
    unfold NOISE_AMP
    nlinarith

/-- Witness for C10: the offset at half-width 1 and noise 0. -/
theorem claim_noise_bounds_witness :
    0 ≤ (1 : ℚ) + 0 * 1 * NOISE_AMP :=
  claim_noise_bounds.2.1 1 0 (by norm_num) (by norm_num) (by norm_num)
